import Mathlib

/-!
# Veterinary Diagnostic Simulator — verification development

Shallow embedding of the core of the Veterinary-Diagnostic-Simulator
repository:

* the game progression engine of `src/client/hooks/use-veterinary-game.ts`
  (`startNewCase`, `runDiagnosticTest`, `submitDiagnosis`, `submitTreatments`,
  `nextPhase` acting on `GameState`);
* the persistence service of `src/client/lib/indexeddb-service.ts`
  (`getUserData`/`updateUserData`, `getGameSessions`, `markCaseCompleted`,
  `getStatistics`);
* the profile read-modify-write of `handleGameComplete` in the
  `VeterinaryGame` component.

JavaScript numbers are modelled as `Int` (with `Int.fdiv` for `Math.floor`
of a quotient, and `max`/`min` for `Math.max`/`Math.min`); counters that the
code only ever increments from zero are modelled as `Nat`; the stored
`averageScore` (a float quotient) is modelled as `ℚ`.  Stores are modelled as
association lists where a `put` prepends (newest binding shadows older ones),
and asynchronous reads that may fail are modelled with `Except`.  Clock reads
(`new Date()`) are passed in as explicit `Int` timestamps.
-/

namespace VetSim

/-! ## Game engine data model (`use-veterinary-game.ts`) -/

inductive GamePhase where
  | intake
  | diagnosis
  | treatment
  | results
deriving DecidableEq, Repr

/-- The fields of `VeterinaryCase` that the engine logic reads. -/
structure VeterinaryCase where
  id : String
  correctDiagnosis : String
  correctTreatments : List String
  difficulty : String
deriving DecidableEq, Repr

structure TestResult where
  testId : String
  values : List (String × String)
  abnormal : Bool
deriving DecidableEq, Repr

/-- The fields of `DiagnosticTest` that the engine logic reads. -/
structure DiagnosticTest where
  id : String
  timeRequired : Int
deriving DecidableEq, Repr

structure GameState where
  currentCase : Option VeterinaryCase
  completedTests : List TestResult
  selectedDiagnosis : Option String
  selectedTreatments : List String
  score : Int
  timeElapsed : Int
  gamePhase : GamePhase
deriving DecidableEq, Repr

def initialGameState : GameState :=
  { currentCase := none
    completedTests := []
    selectedDiagnosis := none
    selectedTreatments := []
    score := 0
    timeElapsed := 0
    gamePhase := GamePhase.intake }

def startNewCase (selectedCase : VeterinaryCase) (_st : GameState) : GameState :=
  { currentCase := some selectedCase
    completedTests := []
    selectedDiagnosis := none
    selectedTreatments := []
    score := 0
    timeElapsed := 0
    gamePhase := GamePhase.intake }

/-- `runDiagnosticTest`.  The mock result generator and the `Math.random`
abnormal flag are external inputs, passed in as `mockValues`/`mockAbnormal`. -/
def runDiagnosticTest (test : DiagnosticTest) (mockValues : List (String × String))
    (mockAbnormal : Bool) (st : GameState) : GameState :=
  match st.currentCase with
  | none => st
  | some _ =>
    { st with
        completedTests :=
          st.completedTests ++ [{ testId := test.id, values := mockValues,
                                  abnormal := mockAbnormal }]
        timeElapsed := st.timeElapsed + test.timeRequired }

def submitDiagnosis (diagnosis : String) (st : GameState) : GameState :=
  { st with
      selectedDiagnosis := some diagnosis
      gamePhase := GamePhase.treatment }

def submitTreatments (treatments : List String) (st : GameState) : GameState :=
  match st.currentCase with
  | none => st
  | some c =>
    let diagnosisScore : Int :=
      if st.selectedDiagnosis = some c.correctDiagnosis then 100 else 0
    let treatmentScore : Int :=
      (treatments.filter (fun t => c.correctTreatments.contains t)).length * 25
    let timeBonus : Int := max 0 (100 - Int.fdiv st.timeElapsed 10)
    let totalScore : Int := min 100 (diagnosisScore + treatmentScore + timeBonus)
    { st with
        selectedTreatments := treatments
        score := totalScore
        gamePhase := GamePhase.results }

def phases : List GamePhase :=
  [GamePhase.intake, GamePhase.diagnosis, GamePhase.treatment, GamePhase.results]

def nextPhase (st : GameState) : GameState :=
  let currentIndex := phases.indexOf st.gamePhase
  let nextIndex := min (currentIndex + 1) (phases.length - 1)
  { st with gamePhase := phases.getD nextIndex GamePhase.intake }

/-- The one-step successor along the fixed phase sequence, clamped at the
terminal phase, as the spec describes it (used to state the `nextPhase`
claim). -/
def phaseSucc : GamePhase → GamePhase
  | GamePhase.intake => GamePhase.diagnosis
  | GamePhase.diagnosis => GamePhase.treatment
  | GamePhase.treatment => GamePhase.results
  | GamePhase.results => GamePhase.results

/-! ## Persistence service data model (`indexeddb-service.ts`) -/

/-- `UserData` as stored in the `userData` object store.  `scores` is the
per-case score record (an object keyed by case id); `difficulty` maps a
difficulty label to a completion count; `averageScore` is a float quotient,
modelled as `ℚ`; `lastPlayed` is a timestamp. -/
structure UserData where
  id : String
  completedCases : List String
  scores : List (String × Int)
  totalScore : Int
  gamesPlayed : Nat
  bestScore : Int
  averageScore : ℚ
  difficulty : List (String × Nat)
  lastPlayed : Int
deriving DecidableEq, Repr

/-- The default user data returned by `getUserData` when no record exists;
`now` is the clock reading taken for the default `lastPlayed`. -/
def defaultUserData (now : Int) : UserData :=
  { id := "player1"
    completedCases := []
    scores := []
    totalScore := 0
    gamesPlayed := 0
    bestScore := 0
    averageScore := 0
    difficulty := [("medium", 0), ("hard", 0)]
    lastPlayed := now }

/-- `getUserData`: the stored record if present, the default otherwise. -/
def getUserData (now : Int) (store : Option UserData) : UserData :=
  match store with
  | some u => u
  | none => defaultUserData now

/-- `updateUserData`: `store.put({...userData, lastPlayed: new Date()})` —
full overwrite, stamping the store-side clock reading `now` over whatever
`lastPlayed` the caller supplied. -/
def updateUserData (now : Int) (userData : UserData) (_store : Option UserData) :
    Option UserData :=
  some { userData with lastPlayed := now }

/-- A JavaScript numeric value: either a finite number or `NaN` (both satisfy
`typeof v === 'number'`). -/
inductive RawNum where
  | num (n : Int)
  | nan
deriving DecidableEq, Repr

/-- A record in the `gameSessions` object store, as loosely typed data: the
fields the service's shape checks and statistics inspect.  `none` models an
absent field. -/
structure RawSession where
  id : Option String
  caseId : Option String
  startTime : Int
  score : Option RawNum
  difficulty : Option String
deriving DecidableEq, Repr

/-- JavaScript truthiness of an optional string field (`undefined`, `null`
and `""` are falsy). -/
def truthyStr : Option String → Bool
  | none => false
  | some s => !(s == "")

/-- The shape check of `getGameSessions`:
`session.id && session.caseId && typeof session.score === 'number'`
(the leading `session &&` is vacuous for a present record). -/
def sessionValid (s : RawSession) : Bool :=
  truthyStr s.id && truthyStr s.caseId && s.score.isSome

/-- The cursor loop of `getGameSessions`: walk the records (already in
reverse-chronological index order), push a record only if it passes the shape
check, stop once `count` reaches the limit. -/
def collectSessions : List RawSession → Nat → List RawSession
  | _, 0 => []
  | [], _ + 1 => []
  | s :: rest, k + 1 =>
    if sessionValid s then s :: collectSessions rest k
    else collectSessions rest (k + 1)

/-- `getGameSessions(limit)`: `stored` is the content of the `gameSessions`
store enumerated by the `startTime` index with a `'prev'` cursor, i.e. newest
first. -/
def getGameSessions (limit : Nat) (stored : List RawSession) : List RawSession :=
  collectSessions stored limit

/-- A record in the `caseCompletion` object store. -/
structure CaseCompletionRecord where
  caseId : String
  completed : Bool
  completionDate : Int
  bestScore : Int
  attempts : Nat
  difficulty : String
  scores : List Int
deriving DecidableEq, Repr

/-- The `caseCompletion` object store, keyed by `caseId`; a `put` prepends,
and a `get` takes the newest binding. -/
def CompletionStore := List (String × CaseCompletionRecord)

def completionGet (store : CompletionStore) (caseId : String) :
    Option CaseCompletionRecord :=
  (List.find? (fun p => p.1 == caseId) store).map Prod.snd

def completionPut (store : CompletionStore) (r : CaseCompletionRecord) :
    CompletionStore :=
  (r.caseId, r) :: store

/-- `markCaseCompleted(caseId, score, difficulty)`: read the existing record,
then put the merged one; `now` is the clock reading for `completionDate`. -/
def markCaseCompleted (caseId : String) (score : Int) (difficulty : String)
    (now : Int) (store : CompletionStore) : CompletionStore :=
  let existing := completionGet store caseId
  let caseData : CaseCompletionRecord :=
    { caseId := caseId
      completed := true
      completionDate := now
      bestScore := match existing with
        | some e => max e.bestScore score
        | none => score
      attempts := match existing with
        | some e => e.attempts + 1
        | none => 1
      difficulty := difficulty
      scores := match existing with
        | some e => e.scores ++ [score]
        | none => [score] }
  completionPut store caseData

/-- Invariant tying a completion record to the scores submitted so far for
its case: completed flag set, attempt count and score list matching, and
`bestScore` the maximum of the recorded scores. -/
def completionInv (scores : List Int) (r : CaseCompletionRecord) : Prop :=
  r.completed = true ∧ r.attempts = scores.length ∧ r.scores = scores ∧
    r.bestScore ∈ scores ∧ ∀ x ∈ scores, x ≤ r.bestScore

/-- One `markCaseCompleted` call's arguments: score, difficulty, clock. -/
structure CompletionCall where
  score : Int
  difficulty : String
  now : Int
deriving DecidableEq, Repr

/-- A sequence of `markCaseCompleted` calls for the same `caseId`. -/
def runCompletions (caseId : String) (calls : List CompletionCall)
    (store : CompletionStore) : CompletionStore :=
  calls.foldl (fun st c => markCaseCompleted caseId c.score c.difficulty c.now st) store

/-! ## Statistics (`getStatistics`) -/

/-- The filter of `getStatistics`:
`s && typeof s.score === 'number' && s.difficulty && !isNaN(s.score)`. -/
def statsValid (s : RawSession) : Bool :=
  s.score.isSome && truthyStr s.difficulty &&
    (match s.score with
     | some RawNum.nan => false
     | _ => true)

/-- The numeric value of a session's score (the sessions this is applied to
have passed `statsValid`, so the fallback branches are unreachable). -/
def scoreOf (s : RawSession) : Int :=
  match s.score with
  | some (RawNum.num n) => n
  | _ => 0

def difficultyOf (s : RawSession) : String :=
  s.difficulty.getD ""

/-- `acc[d] = (acc[d] || 0) + 1` on a JavaScript object modelled as an
insertion-ordered association list. -/
def bumpCount (acc : List (String × Nat)) (d : String) : List (String × Nat) :=
  if acc.any (fun p => p.1 == d) then
    acc.map (fun p => if p.1 == d then (p.1, p.2 + 1) else p)
  else acc ++ [(d, 1)]

structure StatisticsSummary where
  gamesPlayed : Nat
  casesCompleted : Nat
  averageScore : ℚ
  bestScore : Int
  difficultyBreakdown : List (String × Nat)
  recentSessions : List RawSession
deriving DecidableEq, Repr

/-- The all-zero summary returned on any read failure. -/
def zeroStatistics : StatisticsSummary :=
  { gamesPlayed := 0
    casesCompleted := 0
    averageScore := 0
    bestScore := 0
    difficultyBreakdown := []
    recentSessions := [] }

/-- `getStatistics`: the three awaited reads are modelled by `Except` values
(`getUserData`, `getGameSessions(100)` over the newest-first stored records,
`getCompletedCases`); the surrounding `try`/`catch` returns the all-zero
summary if any of them fails. -/
def getStatistics (userRes : Except String UserData)
    (storedRes : Except String (List RawSession))
    (completedRes : Except String (List String)) : StatisticsSummary :=
  match userRes, storedRes, completedRes with
  | Except.ok _, Except.ok stored, Except.ok completedCases =>
    let sessions := getGameSessions 100 stored
    let validSessions := sessions.filter statsValid
    { gamesPlayed := validSessions.length
      casesCompleted := completedCases.length
      averageScore :=
        if validSessions.length > 0 then
          ((validSessions.map scoreOf).sum : ℚ) / (validSessions.length : ℚ)
        else 0
      bestScore := match validSessions.map scoreOf with
        | [] => 0
        | h :: t => t.foldl max h
      difficultyBreakdown :=
        validSessions.foldl (fun acc s => bumpCount acc (difficultyOf s)) []
      recentSessions := validSessions.take 5 }
  | _, _, _ => zeroStatistics

/-! ## Game-completion profile update (`handleGameComplete`) -/

/-- The read-modify-write of the user profile performed by
`handleGameComplete` after a completed game: bump the counters, add the
score, raise the best, recompute the running average, bump the difficulty
count, and append the case id to `completedCases` unless already present. -/
def updateProfileOnComplete (userData : UserData) (caseId : String)
    (score : Int) (difficulty : String) : UserData :=
  let updated : UserData :=
    { userData with
        gamesPlayed := userData.gamesPlayed + 1
        totalScore := userData.totalScore + score
        bestScore := max userData.bestScore score
        averageScore :=
          ((userData.totalScore + score : Int) : ℚ) /
            ((userData.gamesPlayed + 1 : Nat) : ℚ)
        difficulty := bumpCount userData.difficulty difficulty }
  if userData.completedCases.contains caseId then updated
  else { updated with completedCases := updated.completedCases ++ [caseId] }

/-- One completed game, as seen by the profile update. -/
structure PlayOutcome where
  caseId : String
  score : Int
  difficulty : String
deriving DecidableEq, Repr

def runProfileUpdates (plays : List PlayOutcome) (userData : UserData) : UserData :=
  plays.foldl (fun u p => updateProfileOnComplete u p.caseId p.score p.difficulty) userData

/-- The UserProfile invariants of the spec, relative to the list of session
scores recorded so far: the running average is the quotient of the totals,
the best score bounds every recorded score, and the completed-case list has
no duplicates. -/
def profileInv (sessionScores : List Int) (u : UserData) : Prop :=
  (0 < u.gamesPlayed → u.averageScore = (u.totalScore : ℚ) / (u.gamesPlayed : ℚ)) ∧
  (∀ s ∈ sessionScores, s ≤ u.bestScore) ∧
  u.completedCases.Nodup

/-- Observer for association-list counters (`acc[d] || 0` in JavaScript):
the first binding for `d`, or `0` when there is none. -/
def countFor (acc : List (String × Nat)) (d : String) : Nat :=
  match acc with
  | [] => 0
  | p :: rest => if p.1 == d then p.2 else countFor rest d

/-! ## Concrete fixtures used by witnesses and counterexamples -/

def sampleCase : VeterinaryCase :=
  { id := "case-1"
    correctDiagnosis := "parvovirus"
    correctTreatments := ["iv-fluids", "antiemetics"]
    difficulty := "medium" }

/-- A mid-game state with a bound case and a submitted diagnosis. -/
def sampleState : GameState :=
  { currentCase := some sampleCase
    completedTests := []
    selectedDiagnosis := some "parvovirus"
    selectedTreatments := []
    score := 0
    timeElapsed := 50
    gamePhase := GamePhase.treatment }

/-- A state with a bound case but no diagnosis submitted yet. -/
def noDiagnosisState : GameState :=
  { sampleState with selectedDiagnosis := none }

/-- A state in the terminal phase. -/
def resultsState : GameState :=
  { sampleState with gamePhase := GamePhase.results }

/-- A stored user profile. -/
def sampleProfile : UserData :=
  { id := "player1"
    completedCases := ["case-1"]
    scores := [("case-1", 80)]
    totalScore := 80
    gamesPlayed := 1
    bestScore := 80
    averageScore := 80
    difficulty := [("medium", 1), ("hard", 0)]
    lastPlayed := 3 }

/-- A well-formed stored game session. -/
def goodSession : RawSession :=
  { id := some "session-1"
    caseId := some "case-1"
    startTime := 200
    score := some (RawNum.num 85)
    difficulty := some "medium" }

/-- A stored record whose `score` field is missing. -/
def missingScoreSession : RawSession :=
  { id := some "session-0"
    caseId := some "case-2"
    startTime := 100
    score := none
    difficulty := some "hard" }

end VetSim

namespace VetSim

/-! ## Theorems -/

/-- C1: for every bound case, `submitTreatments` computes the score exactly
as `min(100, diagnosisScore + treatmentScore + timeBonus)` with
`diagnosisScore = 100` iff the selected diagnosis equals the case's correct
diagnosis, `treatmentScore = 25 ·` the count of selected treatments that are
in the case's correct treatments, and
`timeBonus = max(0, 100 - ⌊elapsedTime / 10⌋)`; it records this total as the
state's score, stores the treatment set, and moves to the results phase. -/
theorem submitTreatments_computes_score (st : GameState) (c : VeterinaryCase)
    (treatments : List String) (h : st.currentCase = some c) :
    submitTreatments treatments st =
      { st with
          selectedTreatments := treatments
          score := min 100
            ((if st.selectedDiagnosis = some c.correctDiagnosis then 100 else 0) +
              25 * (treatments.countP (fun t => t ∈ c.correctTreatments) : Int) +
              max 0 (100 - Int.fdiv st.timeElapsed 10))
          gamePhase := GamePhase.results } := by
  have hfilter : treatments.filter (fun t => c.correctTreatments.contains t)
      = treatments.filter (fun t => decide (t ∈ c.correctTreatments)) := by
    apply List.filter_congr
    intro t _
    simp
  simp only [submitTreatments, h, List.countP_eq_length_filter, hfilter, mul_comm]

/-- Witness for C1 at a concrete state: case bound, diagnosis correct, one
correct treatment selected, elapsed time 50, so the recorded score is
`min(100, 100 + 25 + 95) = 100`. -/
theorem submitTreatments_computes_score_witness :
    sampleState.currentCase = some sampleCase ∧
    (submitTreatments ["iv-fluids"] sampleState).score = 100 := by
  refine ⟨rfl, ?_⟩
  rw [submitTreatments_computes_score sampleState sampleCase ["iv-fluids"] rfl]
  decide

/-- C2 counterexample: a state with a case bound but no diagnosis submitted,
on which `submitTreatments` is not a no-op (the code never checks for a
submitted diagnosis, only for a bound case). -/
theorem submitTreatments_no_diagnosis_check_counterexample :
    noDiagnosisState.selectedDiagnosis = none ∧
    noDiagnosisState.currentCase = some sampleCase ∧
    submitTreatments ["iv-fluids"] noDiagnosisState ≠ noDiagnosisState := by
  decide

/-- C2 (amended): `submitTreatments` requires only a bound case: with no case
bound it is a no-op; with a case bound it records the chosen treatment set,
computes the score, and advances the phase to results, whether or not a
diagnosis has been submitted. -/
theorem submitTreatments_requires_only_bound_case (treatments : List String)
    (st : GameState) :
    (st.currentCase = none → submitTreatments treatments st = st) ∧
    (∀ c, st.currentCase = some c →
      (submitTreatments treatments st).selectedTreatments = treatments ∧
      (submitTreatments treatments st).gamePhase = GamePhase.results ∧
      (submitTreatments treatments st).score = min 100
        ((if st.selectedDiagnosis = some c.correctDiagnosis then 100 else 0) +
          ((treatments.filter
            (fun t => c.correctTreatments.contains t)).length : Int) * 25 +
          max 0 (100 - Int.fdiv st.timeElapsed 10))) := by
  constructor
  · intro h
    simp [submitTreatments, h]
  · intro c h
    simp [submitTreatments, h]

/-- Witness for C2 (amended): with no case bound the call is a no-op; with a
case bound and no diagnosis submitted it still advances to results. -/
theorem submitTreatments_requires_only_bound_case_witness :
    (initialGameState.currentCase = none ∧
      submitTreatments ["iv-fluids"] initialGameState = initialGameState) ∧
    (noDiagnosisState.currentCase = some sampleCase ∧
      (submitTreatments ["iv-fluids"] noDiagnosisState).gamePhase =
        GamePhase.results) :=
  ⟨⟨rfl, (submitTreatments_requires_only_bound_case ["iv-fluids"]
            initialGameState).1 rfl⟩,
   ⟨rfl, ((submitTreatments_requires_only_bound_case ["iv-fluids"]
            noDiagnosisState).2 sampleCase rfl).2.1⟩⟩

/-- C8: `nextPhase` advances the phase exactly one step along
intake → diagnosis → treatment → results, changes nothing else, and clamps
at the terminal phase: in the results phase it is the identity. -/
theorem nextPhase_advances_one_step (st : GameState) :
    nextPhase st = { st with gamePhase := phaseSucc st.gamePhase } ∧
      (st.gamePhase = GamePhase.results → nextPhase st = st) := by
  obtain ⟨cc, ct, sd, sts, sc, te, ph⟩ := st
  cases ph <;> refine ⟨rfl, fun h => ?_⟩ <;> first | rfl | simp at h

/-- Witness for C8 at the terminal phase: `nextPhase` leaves a results-phase
state completely unchanged. -/
theorem nextPhase_advances_one_step_witness :
    resultsState.gamePhase = GamePhase.results ∧
      nextPhase resultsState = resultsState :=
  ⟨rfl, (nextPhase_advances_one_step resultsState).2 rfl⟩

/-- C9: with a case bound and a non-negative elapsed time, the score recorded
by `submitTreatments` lies in `[0, 100]`. -/
theorem submitTreatments_score_in_range (st : GameState) (c : VeterinaryCase)
    (treatments : List String) (h : st.currentCase = some c)
    (_ht : 0 ≤ st.timeElapsed) :
    0 ≤ (submitTreatments treatments st).score ∧
      (submitTreatments treatments st).score ≤ 100 := by
  simp only [submitTreatments, h]
  refine ⟨le_min (by norm_num) ?_, min_le_left _ _⟩
  have h1 : (0 : Int) ≤ if st.selectedDiagnosis = some c.correctDiagnosis
      then 100 else 0 := by
    split <;> norm_num
  have h2 : (0 : Int) ≤
      ((treatments.filter (fun t => c.correctTreatments.contains t)).length : Int)
        * 25 := by positivity
  have h3 : (0 : Int) ≤ max 0 (100 - Int.fdiv st.timeElapsed 10) :=
    le_max_left _ _
  linarith

/-- Witness for C9 at a concrete state with a bound case and elapsed time 50. -/
theorem submitTreatments_score_in_range_witness :
    sampleState.currentCase = some sampleCase ∧ 0 ≤ sampleState.timeElapsed ∧
      0 ≤ (submitTreatments [] sampleState).score ∧
      (submitTreatments [] sampleState).score ≤ 100 :=
  ⟨rfl, by decide,
    submitTreatments_score_in_range sampleState sampleCase [] rfl (by decide)⟩

/-- C10: `submitDiagnosis` performs no bound-case check: on every state,
including one with no case bound, it records the diagnosis and advances the
phase to treatment; in contrast, `runDiagnosticTest` and `submitTreatments`
leave the state unchanged when no case is bound. -/
theorem submitDiagnosis_no_bound_case_check (d : String) (st : GameState) :
    submitDiagnosis d st =
      { st with selectedDiagnosis := some d, gamePhase := GamePhase.treatment } ∧
    (st.currentCase = none →
      (∀ t mv ab, runDiagnosticTest t mv ab st = st) ∧
      (∀ ts, submitTreatments ts st = st)) := by
  refine ⟨rfl, fun h => ⟨fun t mv ab => ?_, fun ts => ?_⟩⟩ <;>
    simp [runDiagnosticTest, submitTreatments, h]

/-- Witness for C10 at the initial state, which has no case bound:
`submitDiagnosis` still mutates, while the other two operations are no-ops. -/
theorem submitDiagnosis_no_bound_case_check_witness :
    initialGameState.currentCase = none ∧
    submitDiagnosis "parvovirus" initialGameState =
      { initialGameState with
          selectedDiagnosis := some "parvovirus"
          gamePhase := GamePhase.treatment } ∧
    runDiagnosticTest { id := "physical-exam", timeRequired := 15 } [] false
      initialGameState = initialGameState ∧
    submitTreatments [] initialGameState = initialGameState :=
  ⟨rfl,
    (submitDiagnosis_no_bound_case_check "parvovirus" initialGameState).1,
    ((submitDiagnosis_no_bound_case_check "parvovirus" initialGameState).2
      rfl).1 _ [] false,
    ((submitDiagnosis_no_bound_case_check "parvovirus" initialGameState).2
      rfl).2 []⟩

/-- C7: saving a profile and reading it back returns the profile unchanged
except for `lastPlayed`, which the store stamps with its own clock reading
`now` (taken inside the call, hence `≥` the call time `tcall`), ignoring the
`lastPlayed` supplied by the caller. -/
theorem saveUserProfile_roundTrip (tcall now readTime : Int) (u : UserData)
    (store : Option UserData) (h : tcall ≤ now) :
    getUserData readTime (updateUserData now u store) =
      { u with lastPlayed := now } ∧
    tcall ≤ (getUserData readTime (updateUserData now u store)).lastPlayed := by
  refine ⟨rfl, ?_⟩
  simpa [getUserData, updateUserData] using h

/-- Witness for C7: saving `sampleProfile` (whose own `lastPlayed` is 3) at
store clock 7 and reading it back yields `lastPlayed = 7 ≥ 5`. -/
theorem saveUserProfile_roundTrip_witness :
    (5 : Int) ≤ 7 ∧
    (getUserData 9 (updateUserData 7 sampleProfile none) =
        { sampleProfile with lastPlayed := 7 } ∧
      (5 : Int) ≤ (getUserData 9 (updateUserData 7 sampleProfile none)).lastPlayed) :=
  ⟨by norm_num, saveUserProfile_roundTrip 5 7 9 sampleProfile none (by norm_num)⟩

/-- The cursor loop keeps, in order, the valid records up to the limit. -/
theorem collectSessions_eq_filter_take (l : List RawSession) :
    ∀ k, collectSessions l k = (l.filter sessionValid).take k := by
  induction l with
  | nil => intro k; cases k <;> simp [collectSessions]
  | cons s rest ih =>
    intro k
    cases k with
    | zero => simp [collectSessions]
    | succ k =>
      by_cases hv : sessionValid s
      · simp [collectSessions, hv, List.filter_cons, ih]
      · simp [collectSessions, hv, List.filter_cons, ih]

/-- C6: `getGameSessions` returns exactly the shape-valid records, newest
first (it preserves the reverse-chronological cursor order), up to the
limit; in particular, on a store holding one well-formed session and one
record missing its score it returns only the well-formed one. -/
theorem getGameSessions_skips_invalid (limit : Nat) (stored : List RawSession)
    (hsorted : stored.Pairwise (fun a b => b.startTime ≤ a.startTime)) :
    getGameSessions limit stored = (stored.filter sessionValid).take limit ∧
    (getGameSessions limit stored).Pairwise (fun a b => b.startTime ≤ a.startTime) ∧
    getGameSessions 10 [goodSession, missingScoreSession] = [goodSession] := by
  refine ⟨collectSessions_eq_filter_take stored limit, ?_, by decide⟩
  have hsub : (getGameSessions limit stored).Sublist stored := by
    rw [getGameSessions, collectSessions_eq_filter_take stored limit]
    exact ((stored.filter sessionValid).take_sublist limit).trans
      (stored.filter_sublist)
  exact hsorted.sublist hsub

/-- Witness for C6: a two-record store sorted newest first, one record
missing its score. -/
theorem getGameSessions_skips_invalid_witness :
    ([goodSession, missingScoreSession] : List RawSession).Pairwise
        (fun a b => b.startTime ≤ a.startTime) ∧
    getGameSessions 10 [goodSession, missingScoreSession] =
      (([goodSession, missingScoreSession] : List RawSession).filter
          sessionValid).take 10 :=
  ⟨by decide,
    (getGameSessions_skips_invalid 10 [goodSession, missingScoreSession]
      (by decide)).1⟩

/-- Put-then-get on the completion store finds the new record. -/
theorem completionGet_put (store : CompletionStore) (r : CaseCompletionRecord) :
    completionGet (completionPut store r) r.caseId = some r := by
  simp [completionGet, completionPut, List.find?]

/-- `markCaseCompleted` on an absent key creates the initial record. -/
theorem markCaseCompleted_get_new (caseId : String) (s : Int) (d : String)
    (t : Int) (store : CompletionStore)
    (h : completionGet store caseId = none) :
    completionGet (markCaseCompleted caseId s d t store) caseId =
      some { caseId := caseId, completed := true, completionDate := t,
             bestScore := s, attempts := 1, difficulty := d, scores := [s] } := by
  simp only [markCaseCompleted, h]
  exact completionGet_put store _

/-- `markCaseCompleted` on a present key merges into the existing record. -/
theorem markCaseCompleted_get_existing (caseId : String) (s : Int) (d : String)
    (t : Int) (store : CompletionStore) (r : CaseCompletionRecord)
    (h : completionGet store caseId = some r) :
    completionGet (markCaseCompleted caseId s d t store) caseId =
      some { caseId := caseId, completed := true, completionDate := t,
             bestScore := max r.bestScore s, attempts := r.attempts + 1,
             difficulty := d, scores := r.scores ++ [s] } := by
  simp only [markCaseCompleted, h]
  exact completionGet_put store _

/-- One merge step preserves the completion-record invariant. -/
theorem completionInv_append (scores : List Int) (r : CaseCompletionRecord)
    (s : Int) (cid d : String) (t : Int) (hinv : completionInv scores r) :
    completionInv (scores ++ [s])
      { caseId := cid, completed := true, completionDate := t,
        bestScore := max r.bestScore s, attempts := r.attempts + 1,
        difficulty := d, scores := r.scores ++ [s] } := by
  obtain ⟨_hc, ha, hs, hm, hb⟩ := hinv
  refine ⟨rfl, by simp [ha], by rw [hs], ?_, ?_⟩
  · rcases max_choice r.bestScore s with h | h <;> rw [h]
    · exact List.mem_append_left _ hm
    · exact List.mem_append_right _ (by simp)
  · intro x hx
    rcases List.mem_append.mp hx with hx | hx
    · exact (hb x hx).trans (le_max_left _ _)
    · simp only [List.mem_singleton] at hx
      subst hx
      exact le_max_right _ _

/-- Folding further `markCaseCompleted` calls over a present record keeps
the invariant, extending the score list in call order. -/
theorem runCompletions_inv (caseId : String) (calls : List CompletionCall) :
    ∀ (store : CompletionStore) (r : CaseCompletionRecord) (scores : List Int),
      completionGet store caseId = some r → completionInv scores r →
      ∃ r', completionGet (runCompletions caseId calls store) caseId = some r' ∧
        completionInv (scores ++ calls.map CompletionCall.score) r' := by
  induction calls with
  | nil =>
    intro store r scores hget hinv
    exact ⟨r, by simpa [runCompletions] using hget, by simpa using hinv⟩
  | cons c rest ih =>
    intro store r scores hget hinv
    have hstep := markCaseCompleted_get_existing caseId c.score c.difficulty
      c.now store r hget
    have hinv' := completionInv_append scores r c.score caseId c.difficulty
      c.now hinv
    obtain ⟨r', hr', hi'⟩ := ih _ _ _ hstep hinv'
    refine ⟨r', ?_, ?_⟩
    · simpa [runCompletions] using hr'
    · simpa [List.append_assoc] using hi'

/-- C3: after N `markCaseCompleted` calls for the same case id (starting from
a store with no record for it), the completion record has `attempts = N`,
`scores` equal to the submitted scores in call order, and `bestScore` the
maximum of those scores; the first call creates the record with
`attempts = 1` and `completed = true`. -/
theorem markCaseCompleted_accumulates (caseId : String) (first : CompletionCall)
    (rest : List CompletionCall) (store : CompletionStore)
    (h0 : completionGet store caseId = none) :
    (completionGet (markCaseCompleted caseId first.score first.difficulty
        first.now store) caseId =
      some { caseId := caseId, completed := true, completionDate := first.now,
             bestScore := first.score, attempts := 1,
             difficulty := first.difficulty, scores := [first.score] }) ∧
    ∃ r, completionGet (runCompletions caseId (first :: rest) store) caseId
          = some r ∧
      r.completed = true ∧
      r.attempts = (first :: rest).length ∧
      r.scores = (first :: rest).map CompletionCall.score ∧
      r.bestScore ∈ r.scores ∧ (∀ x ∈ r.scores, x ≤ r.bestScore) := by
  have h1 := markCaseCompleted_get_new caseId first.score first.difficulty
    first.now store h0
  refine ⟨h1, ?_⟩
  have hinv1 : completionInv [first.score]
      { caseId := caseId, completed := true, completionDate := first.now,
        bestScore := first.score, attempts := 1,
        difficulty := first.difficulty, scores := [first.score] } :=
    ⟨rfl, rfl, rfl, by simp, by simp⟩
  obtain ⟨r, hr, hc, ha, hs, hm, hb⟩ :
      ∃ r', completionGet (runCompletions caseId rest
          (markCaseCompleted caseId first.score first.difficulty first.now
            store)) caseId = some r' ∧
        completionInv ([first.score] ++ rest.map CompletionCall.score) r' :=
    runCompletions_inv caseId rest _ _ [first.score] h1 hinv1
  refine ⟨r, ?_, hc, ?_, ?_, ?_, ?_⟩
  · simpa [runCompletions] using hr
  · simpa using ha
  · rw [hs]; simp
  · rw [hs]; simpa using hm
  · intro x hx
    apply hb
    rw [hs] at hx
    simpa using hx

/-- Witness for C3: two calls for the same case on an empty store yield
`attempts = 2`, `scores = [50, 80]` and a maximal `bestScore`. -/
theorem markCaseCompleted_accumulates_witness :
    completionGet ([] : CompletionStore) "case-1" = none ∧
    ((completionGet (markCaseCompleted "case-1" 50 "medium" 10 []) "case-1" =
      some { caseId := "case-1", completed := true, completionDate := 10,
             bestScore := 50, attempts := 1, difficulty := "medium",
             scores := [50] }) ∧
    ∃ r, completionGet (runCompletions "case-1"
          [⟨50, "medium", 10⟩, ⟨80, "medium", 20⟩] []) "case-1" = some r ∧
      r.completed = true ∧
      r.attempts = 2 ∧
      r.scores = [50, 80] ∧
      r.bestScore ∈ r.scores ∧ (∀ x ∈ r.scores, x ≤ r.bestScore)) :=
  ⟨rfl, markCaseCompleted_accumulates "case-1" ⟨50, "medium", 10⟩
    [⟨80, "medium", 20⟩] [] rfl⟩

/-- One game-completion profile update preserves the profile invariants,
extending the list of recorded session scores. -/
theorem updateProfileOnComplete_inv (u : UserData) (caseId : String)
    (score : Int) (difficulty : String) (scores : List Int)
    (h : profileInv scores u) :
    profileInv (scores ++ [score])
      (updateProfileOnComplete u caseId score difficulty) := by
  obtain ⟨_havg, hbest, hnodup⟩ := h
  have hb : ∀ x ∈ scores ++ [score], x ≤ max u.bestScore score := by
    intro x hx
    rcases List.mem_append.mp hx with hx | hx
    · exact (hbest x hx).trans (le_max_left _ _)
    · simp only [List.mem_singleton] at hx
      subst hx
      exact le_max_right _ _
  simp only [updateProfileOnComplete]
  split
  case isTrue hc => exact ⟨fun _ => rfl, hb, hnodup⟩
  case isFalse hc =>
    refine ⟨fun _ => rfl, hb, ?_⟩
    have hmem : caseId ∉ u.completedCases := by simpa using hc
    simp [List.nodup_append, hnodup, hmem]

/-- Folding game completions over a profile satisfying the invariants keeps
them, extending the recorded scores in play order. -/
theorem runProfileUpdates_inv (plays : List PlayOutcome) :
    ∀ (u : UserData) (scores : List Int), profileInv scores u →
      profileInv (scores ++ plays.map PlayOutcome.score)
        (runProfileUpdates plays u) := by
  induction plays with
  | nil =>
    intro u scores h
    simpa [runProfileUpdates] using h
  | cons p rest ih =>
    intro u scores h
    have h1 := updateProfileOnComplete_inv u p.caseId p.score p.difficulty
      scores h
    have h2 := ih _ _ h1
    simpa [runProfileUpdates, List.append_assoc] using h2

/-- C5: starting from the default profile, every sequence of game-completion
read-modify-writes of `handleGameComplete` preserves the profile invariants:
the stored average equals `totalScore / gamesPlayed` whenever
`gamesPlayed > 0`, `bestScore` bounds every recorded session score, and
`completedCases` contains no duplicates. -/
theorem handleGameComplete_profile_invariants (plays : List PlayOutcome)
    (now : Int) :
    profileInv (plays.map PlayOutcome.score)
      (runProfileUpdates plays (defaultUserData now)) := by
  have h0 : profileInv [] (defaultUserData now) :=
    ⟨fun h => by simp [defaultUserData] at h, by simp,
      by simp [defaultUserData]⟩
  simpa using runProfileUpdates_inv plays (defaultUserData now) [] h0

/-- Witness for C5 (its statement hides implications inside `profileInv`):
two concrete completed games from the default profile. -/
theorem handleGameComplete_profile_invariants_witness :
    profileInv [85, 40]
      (runProfileUpdates
        [{ caseId := "case-1", score := 85, difficulty := "medium" },
         { caseId := "case-2", score := 40, difficulty := "hard" }]
        (defaultUserData 0)) :=
  handleGameComplete_profile_invariants
    [{ caseId := "case-1", score := 85, difficulty := "medium" },
     { caseId := "case-2", score := 40, difficulty := "hard" }] 0

/-- Folding `max` over a list lands on an element of it. -/
theorem foldl_max_mem (h : Int) (t : List Int) : t.foldl max h ∈ h :: t := by
  induction t generalizing h with
  | nil => simp
  | cons a rest ih =>
    simp only [List.foldl_cons]
    rcases List.mem_cons.mp (ih (max h a)) with hm | hm
    · rcases max_choice h a with hc | hc
      · rw [hm, hc]
        exact List.mem_cons_self _ _
      · rw [hm, hc]
        exact List.mem_cons_of_mem _ (List.mem_cons_self _ _)
    · exact List.mem_cons_of_mem _ (List.mem_cons_of_mem _ hm)

/-- Folding `max` over a list bounds every element of it. -/
theorem le_foldl_max (h : Int) (t : List Int) :
    ∀ x ∈ h :: t, x ≤ t.foldl max h := by
  induction t generalizing h with
  | nil =>
    intro x hx
    simp only [List.mem_singleton] at hx
    simp [hx]
  | cons a rest ih =>
    intro x hx
    simp only [List.foldl_cons]
    rcases List.mem_cons.mp hx with hx | hx
    · subst hx
      exact le_trans (le_max_left x a) (ih (max x a) _ (List.mem_cons_self _ _))
    · rcases List.mem_cons.mp hx with hx | hx
      · subst hx
        exact le_trans (le_max_right h x) (ih (max h x) _ (List.mem_cons_self _ _))
      · exact ih (max h a) x (List.mem_cons_of_mem _ hx)

/-- Bumping the entries of a different key leaves `countFor` unchanged. -/
theorem countFor_map_bump_ne (acc : List (String × Nat)) (d e : String)
    (hne : e ≠ d) :
    countFor (acc.map (fun p => if p.1 == d then (p.1, p.2 + 1) else p)) e =
      countFor acc e := by
  induction acc with
  | nil => rfl
  | cons p rest ih =>
    simp only [List.map_cons, countFor]
    cases hpd : (p.1 == d) with
    | true =>
      have hp1 : p.1 = d := by simpa using hpd
      have hpe : (p.1 == e) = false := by
        rw [hp1]
        exact beq_eq_false_iff_ne.mpr (Ne.symm hne)
      simpa [hpd, hpe] using ih
    | false =>
      cases hpe : (p.1 == e) with
      | true => simp [hpd, hpe]
      | false => simpa [hpd, hpe] using ih

/-- When the key is present, bumping it raises its `countFor` by one. -/
theorem countFor_map_bump_eq (acc : List (String × Nat)) (d : String)
    (hany : acc.any (fun p => p.1 == d) = true) :
    countFor (acc.map (fun p => if p.1 == d then (p.1, p.2 + 1) else p)) d =
      countFor acc d + 1 := by
  induction acc with
  | nil => simp at hany
  | cons p rest ih =>
    simp only [List.map_cons, countFor]
    cases hpd : (p.1 == d) with
    | true => simp [hpd]
    | false =>
      have hrest : rest.any (fun p => p.1 == d) = true := by
        simpa [hpd] using hany
      simpa [hpd] using ih hrest

/-- A key that appears in no entry has `countFor` zero. -/
theorem countFor_eq_zero_of_not_any (acc : List (String × Nat)) (e : String)
    (h : acc.any (fun p => p.1 == e) = false) :
    countFor acc e = 0 := by
  induction acc with
  | nil => rfl
  | cons p rest ih =>
    simp only [List.any_cons, Bool.or_eq_false_iff] at h
    simp [countFor, h.1, ih h.2]

/-- `countFor` over an append looks in the left list first. -/
theorem countFor_append (acc₁ acc₂ : List (String × Nat)) (e : String) :
    countFor (acc₁ ++ acc₂) e =
      if acc₁.any (fun p => p.1 == e) then countFor acc₁ e
      else countFor acc₂ e := by
  induction acc₁ with
  | nil => simp [countFor]
  | cons p rest ih =>
    simp only [List.cons_append, countFor, List.any_cons]
    cases hpe : (p.1 == e) with
    | true => simp [hpe]
    | false => simpa [hpe] using ih

/-- `bumpCount` raises exactly the bumped key's `countFor` by one. -/
theorem countFor_bumpCount (acc : List (String × Nat)) (d e : String) :
    countFor (bumpCount acc d) e =
      countFor acc e + (if e = d then 1 else 0) := by
  unfold bumpCount
  split
  case isTrue hany =>
    by_cases he : e = d
    · subst he
      rw [countFor_map_bump_eq acc e hany]
      simp
    · rw [countFor_map_bump_ne acc d e he]
      simp [he]
  case isFalse hany =>
    have hany' : acc.any (fun p => p.1 == d) = false :=
      Bool.eq_false_iff.mpr hany
    rw [countFor_append]
    by_cases he : e = d
    · subst he
      rw [if_neg (by simp [hany'])]
      rw [countFor_eq_zero_of_not_any acc e hany']
      simp [countFor]
    · cases hacc : acc.any (fun p => p.1 == e) with
      | true => simp [hacc, he]
      | false =>
        rw [if_neg (by simp [hacc])]
        rw [countFor_eq_zero_of_not_any acc e hacc]
        have hde : (d == e) = false := beq_eq_false_iff_ne.mpr (Ne.symm he)
        simp [countFor, hde, he]

/-- Folding `bumpCount` over sessions counts the sessions per difficulty. -/
theorem countFor_fold_bump (l : List RawSession) :
    ∀ (acc : List (String × Nat)) (d : String),
      countFor (l.foldl (fun a s => bumpCount a (difficultyOf s)) acc) d =
        countFor acc d + l.countP (fun s => difficultyOf s == d) := by
  induction l with
  | nil =>
    intro acc d
    simp
  | cons s rest ih =>
    intro acc d
    simp only [List.foldl_cons, List.countP_cons]
    rw [ih, countFor_bumpCount]
    by_cases hd : difficultyOf s = d
    · simp [hd]
      omega
    · simp [hd, Ne.symm hd]

/-- The session filter of `getStatistics` keeps exactly the sessions with a
numeric, non-NaN score and a present (non-empty) difficulty label. -/
theorem statsValid_iff (s : RawSession) :
    statsValid s = true ↔
      ((∃ n, s.score = some (RawNum.num n)) ∧
        s.difficulty ≠ none ∧ s.difficulty ≠ some "") := by
  obtain ⟨i, cid, st, sc, diff⟩ := s
  rcases sc with _ | rn
  · simp [statsValid]
  · rcases rn with n | _ <;> rcases diff with _ | dstr <;>
      simp [statsValid, truthyStr]

/-- C4: `getStatistics` keeps, of the up-to-100 most recent sessions, exactly
those with a numeric, non-NaN score and a present difficulty label, and
returns their count as `gamesPlayed`, the completed-case count as
`casesCompleted`, their mean (or 0 if none) as `averageScore`, their maximum
(or 0 if none) as `bestScore`, the per-difficulty counts as
`difficultyBreakdown`, and the first 5 of them as `recentSessions`; any
failure in the underlying reads yields the all-zero summary, which is also
the result on an empty store. -/
theorem getStatistics_summary (u : UserData) (stored : List RawSession)
    (completedCases : List String) :
    (∀ s, statsValid s = true ↔
      ((∃ n, s.score = some (RawNum.num n)) ∧
        s.difficulty ≠ none ∧ s.difficulty ≠ some "")) ∧
    (getStatistics (Except.ok u) (Except.ok stored)
        (Except.ok completedCases)).gamesPlayed =
      ((getGameSessions 100 stored).filter statsValid).length ∧
    (getStatistics (Except.ok u) (Except.ok stored)
        (Except.ok completedCases)).casesCompleted = completedCases.length ∧
    ((getGameSessions 100 stored).filter statsValid = [] →
      (getStatistics (Except.ok u) (Except.ok stored)
        (Except.ok completedCases)).averageScore = 0) ∧
    ((getGameSessions 100 stored).filter statsValid ≠ [] →
      (getStatistics (Except.ok u) (Except.ok stored)
          (Except.ok completedCases)).averageScore =
        ((((getGameSessions 100 stored).filter statsValid).map scoreOf).sum : ℚ)
          / (((getGameSessions 100 stored).filter statsValid).length : ℚ)) ∧
    ((getGameSessions 100 stored).filter statsValid = [] →
      (getStatistics (Except.ok u) (Except.ok stored)
        (Except.ok completedCases)).bestScore = 0) ∧
    ((getGameSessions 100 stored).filter statsValid ≠ [] →
      (getStatistics (Except.ok u) (Except.ok stored)
          (Except.ok completedCases)).bestScore ∈
        ((getGameSessions 100 stored).filter statsValid).map scoreOf ∧
      (∀ s ∈ (getGameSessions 100 stored).filter statsValid,
        scoreOf s ≤ (getStatistics (Except.ok u) (Except.ok stored)
          (Except.ok completedCases)).bestScore)) ∧
    (∀ d, countFor (getStatistics (Except.ok u) (Except.ok stored)
        (Except.ok completedCases)).difficultyBreakdown d =
      ((getGameSessions 100 stored).filter statsValid).countP
        (fun s => difficultyOf s == d)) ∧
    (getStatistics (Except.ok u) (Except.ok stored)
        (Except.ok completedCases)).recentSessions =
      ((getGameSessions 100 stored).filter statsValid).take 5 ∧
    (∀ e, getStatistics (Except.error e) (Except.ok stored)
        (Except.ok completedCases) = zeroStatistics) ∧
    (∀ e, getStatistics (Except.ok u) (Except.error e)
        (Except.ok completedCases) = zeroStatistics) ∧
    (∀ e, getStatistics (Except.ok u) (Except.ok stored)
        (Except.error e) = zeroStatistics) ∧
    getStatistics (Except.ok u) (Except.ok []) (Except.ok []) =
      zeroStatistics := by
  refine ⟨statsValid_iff, rfl, rfl, ?_, ?_, ?_, ?_, ?_, rfl,
    fun e => rfl, fun e => rfl, fun e => rfl, rfl⟩
  · intro hnil
    simp [getStatistics, hnil]
  · intro hne
    have hpos : 0 < ((getGameSessions 100 stored).filter statsValid).length :=
      List.length_pos.mpr hne
    simp [getStatistics, hpos]
  · intro hnil
    simp [getStatistics, hnil]
  · intro hne
    obtain ⟨a, t, hat⟩ : ∃ a t,
        ((getGameSessions 100 stored).filter statsValid).map scoreOf
          = a :: t := by
      cases hv : (getGameSessions 100 stored).filter statsValid with
      | nil => exact absurd hv hne
      | cons x xs => exact ⟨scoreOf x, xs.map scoreOf, by simp [hv]⟩
    have hbest : (getStatistics (Except.ok u) (Except.ok stored)
        (Except.ok completedCases)).bestScore = t.foldl max a := by
      simp [getStatistics, hat]
    constructor
    · rw [hbest, hat]
      exact foldl_max_mem a t
    · intro s hs
      rw [hbest]
      apply le_foldl_max a t
      rw [← hat]
      exact List.mem_map_of_mem scoreOf hs
  · intro d
    have h := countFor_fold_bump
      ((getGameSessions 100 stored).filter statsValid) [] d
    simpa [getStatistics, countFor] using h

/-- Witness for C4: a store with one valid and one score-less session; the
average is the quotient over the single valid session. -/
theorem getStatistics_summary_witness :
    (getGameSessions 100 [goodSession, missingScoreSession]).filter statsValid
      ≠ [] ∧
    (getStatistics (Except.ok sampleProfile)
        (Except.ok [goodSession, missingScoreSession])
        (Except.ok ["case-1"])).averageScore =
      ((((getGameSessions 100 [goodSession, missingScoreSession]).filter
          statsValid).map scoreOf).sum : ℚ) /
        (((getGameSessions 100 [goodSession, missingScoreSession]).filter
          statsValid).length : ℚ) :=
  ⟨by decide,
    (getStatistics_summary sampleProfile [goodSession, missingScoreSession]
      ["case-1"]).2.2.2.2.1 (by decide)⟩

end VetSim
